import Mathlib

/-!
Verification of the bento process supervisor (heewa/bento) against its
natural-language specification.  The Go sources are shallowly embedded:
pure functions become Lean functions, the stateful parts become explicit
state passing over structures, Go `int` becomes `Int` (with `Nat` for
fields whose reachable values are non-negative counters), and fallible
code returns `Except`/`Option`.
-/

namespace Bento

/-! ## Ring output buffer (service/output.go)

An output line (`OutputLine` in Go) carries the pid of the process that
produced it, a stderr flag, and the line text.  The buffer logic only
ever reads the byte length of the text (`len(line)` at append/evict
time) and never inspects its content, so the text is represented here by
its byte length. -/

structure OutputLine where
  pid : Int
  stderr : Bool
  /-- byte length of the line text; the buffer code only uses `len(line)` -/
  line : Nat
deriving Repr, DecidableEq

instance : Inhabited OutputLine := ⟨⟨0, false, 0⟩⟩

/-- `maxOutputSize = 100 * 1024 * 1024` from service/service.go. -/
def maxOutputSize : Nat := 100 * 1024 * 1024

/-- The `output` struct of service/output.go: the retained window of
lines, the count of evicted leading lines (`indexOffset`), and the pid
currently being followed.  `indexOffset` starts at 0 and is only ever
incremented, so it is a `Nat`. -/
structure Output where
  lines : List OutputLine
  indexOffset : Nat
  pid : Int
deriving Repr, DecidableEq

/-- Total number of bytes held by a list of lines. -/
def bytesOf (l : List OutputLine) : Nat :=
  (l.map (fun x => x.line)).sum

/-- Total number of bytes retained across all stored lines. -/
def totalBytes (out : Output) : Nat :=
  bytesOf out.lines

/-- Size of the largest retained line (0 if the buffer is empty). -/
def maxRetainedLine (out : Output) : Nat :=
  (out.lines.map (fun l => l.line)).foldr max 0

/-- The eviction loop at the end of `watchOutput`:
`for len(out.lines) > 1 && size > maxOutputSize { size -= len(lines[0]); lines = lines[1:]; indexOffset++ }`.
`size` is the calling reader's local byte counter (a Go `int`, which can
go negative when the evicted head was appended by the other reader). -/
def evict : List OutputLine → Nat → Int → List OutputLine × Nat × Int
  | x :: y :: rest, off, size =>
      if size > (maxOutputSize : Int) then
        evict (y :: rest) (off + 1) (size - (x.line : Int))
      else
        (x :: y :: rest, off, size)
  | l, off, size => (l, off, size)

/-- One iteration of the `watchOutput` reader loop body (the locked
closure): drop the line if this reader's process has been replaced,
otherwise append it, grow this reader's local `size` counter, and run
the eviction loop. -/
def appendLine (out : Output) (watcherPid : Int) (isStderr : Bool) (size : Int)
    (len : Nat) : Output × Int :=
  if watcherPid ≠ out.pid then
    (out, size)
  else
    let size1 := size + (len : Int)
    let lines1 := out.lines ++ [⟨watcherPid, isStderr, len⟩]
    match evict lines1 out.indexOffset size1 with
    | (lines2, off2, size2) =>
        ({ lines := lines2, indexOffset := off2, pid := out.pid }, size2)

/-- A single reader (`watchOutput` goroutine) consuming its stream of
lines in order; the second component of the state is the reader's local
`size` counter, which starts at 0 when the reader is spawned. -/
def runWatcher (watcherPid : Int) : Output × Int → List (Bool × Nat) → Output × Int
  | st, [] => st
  | (out, size), (isErr, len) :: rest =>
      runWatcher watcherPid (appendLine out watcherPid isErr size len) rest

/-- `followNewProcess` (state part): cancels the previous readers and
sets `out.pid`; already-captured lines are retained.  The two fresh
readers it spawns each start with a fresh local `size = 0` counter
(modelled by starting `runWatcher` at size 0). -/
def followNewProcess (out : Output) (pid : Int) : Output :=
  { lines := out.lines, indexOffset := out.indexOffset, pid := pid }

/-! ### `Get` (service/output.go, lines 79-145) -/

/-- The first backward scan of the negative-index branch of `Get`:
`for end > 0 && pid != out.lines[end-1].Pid { end-- }`, started at
`end = len(lines)`.  The recursion argument is the current `end`. -/
def scanBackPid (lines : List OutputLine) (pid : Int) : Nat → Nat
  | 0 => 0
  | e + 1 => if pid = (lines.getD e default).pid then e + 1 else scanBackPid lines pid e

/-- The second backward scan of the negative-index branch of `Get`:
`num := -index; index := end; for index > 0 && end-index < num && (pid == 0 || lines[index-1].Pid == pid) { index-- }`.
The recursion argument is the current `index`, started at `e`. -/
def scanBackStart (lines : List OutputLine) (pid : Int) (num e : Nat) : Nat → Nat
  | 0 => 0
  | i + 1 =>
      if e - (i + 1) < num ∧ (pid = 0 ∨ (lines.getD i default).pid = pid) then
        scanBackStart lines pid num e i
      else
        i + 1

/-- The forward scan of `Get`:
`end := index; for end < len(lines) && (max == 0 || end-index < max) && (pid == 0 || pid == lines[end].Pid) { end++ }`.
The loop runs at most `lines.length - e` times (each iteration needs
`end < len(lines)` and increments `end`), which bounds the fuel. -/
def scanFwdAux (lines : List OutputLine) (pid mx : Int) (start : Nat) :
    Nat → Nat → Nat
  | 0, e => e
  | fuel + 1, e =>
      if e < lines.length ∧ (mx = 0 ∨ (e : Int) - (start : Int) < mx) ∧
          (pid = 0 ∨ pid = (lines.getD e default).pid) then
        scanFwdAux lines pid mx start fuel (e + 1)
      else
        e

def scanFwd (lines : List OutputLine) (pid mx : Int) (start e : Nat) : Nat :=
  scanFwdAux lines pid mx start (lines.length - e) e

/-- The start position (an index into `out.lines`) computed by the first
half of `Get`: translate a global or negative index into the window,
then clamp to 0 (`if index < 0 { index = 0 }`; `Int.toNat` is exactly
that clamp). -/
def getStart (out : Output) (index pid : Int) : Nat :=
  (if index ≥ 0 then
    index - (out.indexOffset : Int)
  else
    let e0 := out.lines.length
    let e1 := if pid > 0 ∧ pid ≠ out.pid then scanBackPid out.lines pid e0 else e0
    if e1 > 0 then ((scanBackStart out.lines pid (-index).toNat e1 e1 : Nat) : Int)
    else index).toNat

/-- The one-past-the-end position computed by the forward scan of `Get`. -/
def getEnd (out : Output) (index pid mx : Int) : Nat :=
  scanFwd out.lines pid mx (getStart out index pid) (getStart out index pid)

/-- `nextPid` as computed at the end of `Get`: the pid of the line just
past the returned range, or the currently-followed pid if there is none. -/
def getNextPid (out : Output) (index pid mx : Int) : Int :=
  match out.lines.get? (getEnd out index pid mx) with
  | some l => l.pid
  | none => out.pid

structure GetResult where
  lines : List OutputLine
  eof : Bool
  nextIndex : Int
  nextPid : Int
deriving Repr, DecidableEq

/-- `Get(index, pid, max)` of service/output.go. -/
def Output.get (out : Output) (index pid mx : Int) : GetResult :=
  { lines := (out.lines.drop (getStart out index pid)).take
      (getEnd out index pid mx - getStart out index pid)
    eof := decide (pid ≠ 0 ∧ pid ≠ getNextPid out index pid mx)
    nextIndex := (out.indexOffset : Int) + (getEnd out index pid mx : Int)
    nextPid := getNextPid out index pid mx }

/-- `GetTail(pid, num)` is `Get(-num, pid, num)`. -/
def Output.getTail (out : Output) (pid num : Int) : GetResult :=
  out.get (-1 * num) pid num

/-! ### Byte-bound invariant of a single reader -/

/-- Invariant tying a reader's local `size` counter to the buffer: the
counter equals the retained byte total, and the eviction loop has
re-established its postcondition (either under the cap, or a single
oversized line remains). -/
def ReaderInv (out : Output) (size : Int) : Prop :=
  size = (bytesOf out.lines : Int) ∧
    (bytesOf out.lines ≤ maxOutputSize ∨ out.lines.length ≤ 1)

theorem bytesOf_cons (x : OutputLine) (l : List OutputLine) :
    bytesOf (x :: l) = x.line + bytesOf l := by
  simp [bytesOf]

theorem bytesOf_append_one (l : List OutputLine) (x : OutputLine) :
    bytesOf (l ++ [x]) = bytesOf l + x.line := by
  simp [bytesOf]

theorem evict_post (l : List OutputLine) (off : Nat) (size : Int)
    (h : size = (bytesOf l : Int)) :
    (evict l off size).2.2 = (bytesOf (evict l off size).1 : Int) ∧
      (bytesOf (evict l off size).1 ≤ maxOutputSize ∨ (evict l off size).1.length ≤ 1) := by
  induction l generalizing off size with
  | nil => exact ⟨h, Or.inr (by simp [evict])⟩
  | cons x rest ih =>
      cases rest with
      | nil => exact ⟨h, Or.inr (by simp [evict])⟩
      | cons y rest2 =>
          by_cases hgt : size > (maxOutputSize : Int)
          · have hstep : evict (x :: y :: rest2) off size =
                evict (y :: rest2) (off + 1) (size - (x.line : Int)) := by
              simp [evict, hgt]
            rw [hstep]
            apply ih
            rw [h, bytesOf_cons]
            push_cast
            ring
          · have hstep : evict (x :: y :: rest2) off size = (x :: y :: rest2, off, size) := by
              simp [evict, hgt]
            rw [hstep]
            refine ⟨h, Or.inl ?_⟩
            have : (bytesOf (x :: y :: rest2) : Int) ≤ (maxOutputSize : Int) := by
              rw [← h]; omega
            exact_mod_cast this

theorem appendLine_inv (out : Output) (wpid : Int) (isErr : Bool) (size : Int)
    (len : Nat) (h : ReaderInv out size) :
    ReaderInv (appendLine out wpid isErr size len).1 (appendLine out wpid isErr size len).2 := by
  unfold appendLine
  by_cases hp : wpid ≠ out.pid
  · simpa [hp] using h
  · simp only [hp, if_false]
    have hbytes : size + (len : Int) =
        (bytesOf (out.lines ++ [⟨wpid, isErr, len⟩]) : Int) := by
      rw [bytesOf_append_one, h.1]
      push_cast
      ring
    have hpost := evict_post (out.lines ++ [⟨wpid, isErr, len⟩]) out.indexOffset
      (size + (len : Int)) hbytes
    rcases hres : evict (out.lines ++ [⟨wpid, isErr, len⟩]) out.indexOffset
        (size + (len : Int)) with ⟨lines2, off2, size2⟩
    rw [hres] at hpost
    rw [hres]
    exact ⟨hpost.1, hpost.2⟩

theorem runWatcher_inv (wpid : Int) (evs : List (Bool × Nat)) (out : Output) (size : Int)
    (h : ReaderInv out size) :
    ReaderInv (runWatcher wpid (out, size) evs).1 (runWatcher wpid (out, size) evs).2 := by
  induction evs generalizing out size with
  | nil => simpa [runWatcher] using h
  | cons ev rest ih =>
      rcases ev with ⟨isErr, len⟩
      have hstep := appendLine_inv out wpid isErr size len h
      rcases hres : appendLine out wpid isErr size len with ⟨out1, size1⟩
      rw [hres] at hstep
      simpa [runWatcher, hres] using ih out1 size1 hstep

theorem readerInv_bound (out : Output) (size : Int) (h : ReaderInv out size) :
    totalBytes out ≤ maxOutputSize + maxRetainedLine out := by
  rcases h.2 with hle | hlen
  · exact le_trans hle (Nat.le_add_right _ _)
  · rcases hl : out.lines with _ | ⟨a, rest⟩
    · simp [totalBytes, bytesOf, hl]
    · rcases rest with _ | ⟨b, rest2⟩
      · have : maxRetainedLine out = a.line := by
          simp [maxRetainedLine, hl]
        rw [this]
        have : totalBytes out = a.line := by
          simp [totalBytes, bytesOf, hl]
        omega
      · rw [hl] at hlen
        simp at hlen

/-- C1-amended: a ring buffer all of whose lines were captured by one
reader (one stream of one process), starting from an empty buffer,
retains at most `MAX_OUTPUT_BYTES` plus the size of one maximal line.
The `size` counter that drives eviction is local to each reader
goroutine, so the bound is per reader, not per buffer. -/
theorem ring_buffer_single_reader_bound (wpid p0 : Int) (evs : List (Bool × Nat)) :
    totalBytes (runWatcher wpid ({ lines := [], indexOffset := 0, pid := p0 }, 0) evs).1 ≤
      maxOutputSize +
        maxRetainedLine (runWatcher wpid ({ lines := [], indexOffset := 0, pid := p0 }, 0) evs).1 := by
  have hinv : ReaderInv { lines := [], indexOffset := 0, pid := p0 } 0 := by
    constructor
    · simp [bytesOf]
    · right; simp
  exact readerInv_bound _ _ (runWatcher_inv wpid evs _ 0 hinv)

/-! ### Theorems about `Get` -/

/-- C3: `nextPid` is the pid of the line one past the returned range
(looked up at global index `nextIndex`), or the currently-followed pid
if no such line exists; and `eof` holds exactly when `pid ≠ 0` and
`pid ≠ nextPid`. -/
theorem get_nextPid_eof (out : Output) (index pid mx : Int) :
    ((out.get index pid mx).nextPid =
      match out.lines[((out.get index pid mx).nextIndex - (out.indexOffset : Int)).toNat]? with
      | some l => l.pid
      | none => out.pid) ∧
    ((out.get index pid mx).eof = true ↔ pid ≠ 0 ∧ pid ≠ (out.get index pid mx).nextPid) := by
  constructor
  · show getNextPid out index pid mx =
      match out.lines[(((out.indexOffset : Int) + (getEnd out index pid mx : Int)) -
        (out.indexOffset : Int)).toNat]? with
      | some l => l.pid
      | none => out.pid
    rw [show (((out.indexOffset : Int) + (getEnd out index pid mx : Int)) -
        (out.indexOffset : Int)).toNat = getEnd out index pid mx by omega]
    rw [getNextPid, List.get?_eq_getElem?]
  · show decide (pid ≠ 0 ∧ pid ≠ getNextPid out index pid mx) = true ↔
      pid ≠ 0 ∧ pid ≠ getNextPid out index pid mx
    exact decide_eq_true_iff

/-- With a non-negative requested index, the start of the returned
window sits at global index ≥ the request (equal when the window still
holds it, clamped forward to `indexOffset` when it has been evicted). -/
theorem getStart_global_ge (out : Output) (i p : Int) (hi : 0 ≤ i) :
    i ≤ (out.indexOffset : Int) + (getStart out i p : Int) := by
  unfold getStart
  rw [if_pos hi]
  omega

/-- The returned lines are a contiguous slice of the buffer starting at
`getStart`, ending before `getEnd`. -/
theorem get_lines_slice (out : Output) (i p m : Int) (k : Nat)
    (hk : k < ((out.get i p m).lines).length) :
    (out.get i p m).lines[k]? = out.lines[getStart out i p + k]? ∧
      getStart out i p + k < getEnd out i p m := by
  have hlen : ((out.get i p m).lines).length =
      min (getEnd out i p m - getStart out i p)
        (out.lines.length - getStart out i p) := by
    simp [Output.get]
  rw [hlen] at hk
  have hk2 : k < getEnd out i p m - getStart out i p := lt_of_lt_of_le hk (min_le_left _ _)
  constructor
  · show ((out.lines.drop (getStart out i p)).take
        (getEnd out i p m - getStart out i p))[k]? = _
    rw [List.getElem?_take_of_lt hk2, List.getElem?_drop]
  · omega

/-- C4: any index ever handed back as `nextIndex` is ≥ 0, every line of
the call that produced it lies at a global index strictly below it, and
every line of a subsequent `Get` at that index lies at a global index ≥
it — so the second call returns only lines strictly after every line of
the first. -/
theorem get_resume_from_nextIndex (out1 out2 : Output) (i1 p1 m1 p2 m2 : Int) :
    0 ≤ (out1.get i1 p1 m1).nextIndex ∧
    (∀ k : Nat, k < ((out1.get i1 p1 m1).lines).length →
      ∃ j : Nat, (out1.get i1 p1 m1).lines[k]? = out1.lines[j]? ∧
        (out1.indexOffset : Int) + (j : Int) < (out1.get i1 p1 m1).nextIndex) ∧
    (∀ k : Nat, k < ((out2.get (out1.get i1 p1 m1).nextIndex p2 m2).lines).length →
      ∃ j : Nat, (out2.get (out1.get i1 p1 m1).nextIndex p2 m2).lines[k]? = out2.lines[j]? ∧
        (out1.get i1 p1 m1).nextIndex ≤ (out2.indexOffset : Int) + (j : Int)) := by
  have hnn : 0 ≤ (out1.get i1 p1 m1).nextIndex := by
    show (0 : Int) ≤ (out1.indexOffset : Int) + (getEnd out1 i1 p1 m1 : Int)
    positivity
  refine ⟨hnn, ?_, ?_⟩
  · intro k hk
    obtain ⟨hslice, hlt⟩ := get_lines_slice out1 i1 p1 m1 k hk
    refine ⟨getStart out1 i1 p1 + k, hslice, ?_⟩
    show (out1.indexOffset : Int) + ((getStart out1 i1 p1 + k : Nat) : Int) <
      (out1.indexOffset : Int) + (getEnd out1 i1 p1 m1 : Int)
    omega
  · intro k hk
    obtain ⟨hslice, -⟩ :=
      get_lines_slice out2 (out1.get i1 p1 m1).nextIndex p2 m2 k hk
    refine ⟨getStart out2 (out1.get i1 p1 m1).nextIndex p2 + k, hslice, ?_⟩
    have hstart := getStart_global_ge out2 (out1.get i1 p1 m1).nextIndex p2 hnn
    push_cast
    push_cast at hstart
    omega

/-- C4-witness: concrete instantiation of `get_resume_from_nextIndex`:
a first read of one line at index 0 hands back `nextIndex = 1`, and a
read resumed there returns the line at global index 1. -/
theorem get_resume_from_nextIndex_witness :
    ∃ j : Nat,
      ((⟨[⟨1, false, 3⟩, ⟨1, false, 4⟩], 0, 1⟩ : Output).get
          ((⟨[⟨1, false, 3⟩, ⟨1, false, 4⟩], 0, 1⟩ : Output).get 0 1 1).nextIndex 1 1).lines[0]? =
        (⟨[⟨1, false, 3⟩, ⟨1, false, 4⟩], 0, 1⟩ : Output).lines[j]? ∧
      ((⟨[⟨1, false, 3⟩, ⟨1, false, 4⟩], 0, 1⟩ : Output).get 0 1 1).nextIndex ≤
        ((⟨[⟨1, false, 3⟩, ⟨1, false, 4⟩], 0, 1⟩ : Output).indexOffset : Int) + (j : Int) :=
  (get_resume_from_nextIndex ⟨[⟨1, false, 3⟩, ⟨1, false, 4⟩], 0, 1⟩
    ⟨[⟨1, false, 3⟩, ⟨1, false, 4⟩], 0, 1⟩ 0 1 1 1 1).2.2 0 (by decide)

/-- C1-counterexample: with the stdout and stderr readers of the same
process each holding their own `size` counter, two 50 MiB lines on each
stream are all retained: 200 MiB total, exceeding
`MAX_OUTPUT_BYTES + max_line_size` = 100 MiB + 50 MiB.  (The stderr
reader is modelled as running after the stdout reader, a legal
interleaving of the two goroutines.) -/
theorem ring_buffer_two_readers_exceed_bound :
    totalBytes
        (runWatcher 1
          ((runWatcher 1 ({ lines := [], indexOffset := 0, pid := 1 }, 0)
            [(false, 52428800), (false, 52428800)]).1, 0)
          [(true, 52428800), (true, 52428800)]).1 >
      maxOutputSize +
        maxRetainedLine
          (runWatcher 1
            ((runWatcher 1 ({ lines := [], indexOffset := 0, pid := 1 }, 0)
              [(false, 52428800), (false, 52428800)]).1, 0)
            [(true, 52428800), (true, 52428800)]).1 := by
  decide

/-! ## Service instance lifecycle (service/service.go)

The two one-shot channels are modelled by their closed/open state; the
runtime fields the claims touch (`userStopped`, `endTime`) are carried
explicitly.  `running` is `Running()`: the select on `exitChan` returns
false exactly when `exitChan` is closed. -/

structure ServiceState where
  exitChanClosed : Bool
  startChanClosed : Bool
  userStopped : Bool
  /-- `endTime` in nanoseconds since epoch (0 = zero time) -/
  endTime : Int
deriving Repr, DecidableEq

/-- `Running()`: false iff `exitChan` is closed. -/
def running (s : ServiceState) : Bool :=
  !s.exitChanClosed

/-- `New(conf)`: starts with an existing but closed `exitChan`, and an
open `startChan`. -/
def newService : ServiceState :=
  { exitChanClosed := true, startChanClosed := false, userStopped := false, endTime := 0 }

/-- `Wait()` blocks on `exitChan`; it returns immediately exactly when
`exitChan` is already closed. -/
def waitReturnsImmediately (s : ServiceState) : Bool :=
  s.exitChanClosed

/-- The escalation signals of `Stop`: `os.Interrupt, syscall.SIGTERM, os.Kill`. -/
inductive Sig
  | int
  | term
  | kill
deriving Repr, DecidableEq

inductive StopOutcome
  | ok
  | failed
deriving Repr, DecidableEq

/-- The signal loop of `Stop` (service/service.go lines 377-398): send
each signal in turn; `exits sig` says whether the process exits (the
exit watcher closes `exitChan` and reopens `startChan`) within the wait
after that signal.  Returns the final state, the outcome, and the
signals sent. -/
def stopLoop (s : ServiceState) (exits : Sig → Bool) :
    List Sig → List Sig → ServiceState × StopOutcome × List Sig
  | [], sent => (s, .failed, sent)
  | sig :: rest, sent =>
      if exits sig then
        ({ exitChanClosed := true, startChanClosed := false, userStopped := true,
           endTime := s.endTime }, .ok, sent ++ [sig])
      else
        stopLoop s exits rest (sent ++ [sig])

/-- `Stop()` of service/service.go (lines 371-401): returns ok at once,
sending nothing, when the service is not running; otherwise escalate
INT, TERM, KILL, setting `userStopped` when the exit is observed. -/
def stop (s : ServiceState) (exits : Sig → Bool) : ServiceState × StopOutcome × List Sig :=
  if running s = false then
    (s, .ok, [])
  else
    stopLoop s exits [.int, .term, .kill] []

/-! ### Spec-modelled `Service.Stop(escalationInterval)` (claim C2)

Modelled from the spec: the `Service.Stop(escalationInterval)` that the
RPC handler `Server.Stop` (src/unnamed/part_023, line 47) calls is not
among the source files; only that caller and the default constant
`EscalationInterval = 10 * time.Second` (src/unnamed/part_001, lines
24-26) are present, and the `service.go` under src holds an older
no-argument `Stop`.  Spec §4.B: "Resolve target pid and also the
negated process-group id ... For each target in [pid, -pgid] try
signals [INT, TERM, KILL] in order; after each send, wait up to
`escalationInterval` (default 10 s) for `exitChan` close.  If
`exitChan` closes, set `userStopped=true` and return.  If all signals
exhausted on both targets without exit, return stop-error." -/

inductive SigTarget
  | pid
  | negPgid
deriving Repr, DecidableEq

/-- Attempt order of the spec-modelled Stop: for each target in
[pid, -pgid], the signals [INT, TERM, KILL] in order. -/
def stopAttempts : List (SigTarget × Sig) :=
  [SigTarget.pid, SigTarget.negPgid].flatMap
    (fun t => [Sig.int, Sig.term, Sig.kill].map (fun sig => (t, sig)))

/-- Modelled from the spec: the wait after each send is
`escalationInterval`, defaulting to `EscalationInterval = 10 s`
(in nanoseconds, the unit of Go `time.Duration`) when none is given. -/
def escalationWait (esc : Int) : Int :=
  if esc = 0 then 10 * 1000000000 else esc

/-- Modelled from the spec: the attempt loop of
`Service.Stop(escalationInterval)`.  `exits t sig` says whether
`exitChan` closes within the wait after sending `sig` to target `t`. -/
def stopSpecLoop (s : ServiceState) (exits : SigTarget → Sig → Bool) :
    List (SigTarget × Sig) → List (SigTarget × Sig) →
      ServiceState × StopOutcome × List (SigTarget × Sig)
  | [], sent => (s, .failed, sent)
  | a :: rest, sent =>
      if exits a.1 a.2 then
        ({ exitChanClosed := true, startChanClosed := false, userStopped := true,
           endTime := s.endTime }, .ok, sent ++ [a])
      else
        stopSpecLoop s exits rest (sent ++ [a])

/-- Modelled from the spec: `Service.Stop(escalationInterval)` — no-op
ok when not running, otherwise the escalation over `stopAttempts`. -/
def stopSpec (s : ServiceState) (exits : SigTarget → Sig → Bool) :
    ServiceState × StopOutcome × List (SigTarget × Sig) :=
  if running s = false then
    (s, .ok, [])
  else
    stopSpecLoop s exits stopAttempts []

/-! ## Server registry and handlers (src/unnamed/part_020, part_024, part_025, part_027, part_028)

The registry `map[string]*service.Service` is modelled as an association
list with unique names (Go maps cannot hold duplicate keys); map insert
is replace-in-place or append. -/

/-- `config.Service` (src/unnamed/part_002).  `env` is an association
list standing for the Go map; durations are `Int` nanoseconds. -/
structure SrvConf where
  name : String
  program : String
  args : List String
  dir : String
  env : List (String × String)
  autoStart : Bool
  restartOnExit : Bool
  temp : Bool
  cleanAfter : Int
deriving Repr, DecidableEq

/-- A service instance as the server sees it: its config and its
runtime state. -/
structure Srv where
  conf : SrvConf
  st : ServiceState
deriving Repr, DecidableEq

abbrev Registry := List (String × Srv)

def lookupService (reg : Registry) (nm : String) : Option Srv :=
  (reg.find? (fun e => e.1 == nm)).map (fun e => e.2)

/-- The projection of `service.Info` to the fields the claims touch. -/
structure InfoM where
  conf : SrvConf
  running : Bool
  dead : Bool
  endTime : Int
deriving Repr, DecidableEq

def infoOf (srv : Srv) : InfoM :=
  { conf := srv.conf, running := running srv.st, dead := false, endTime := srv.st.endTime }

/-- `removeService` (part_020, lines 204-225): absent name is an
immediate ok with no change and no event; otherwise Stop (blocking),
delete, publish a final info with `Dead = true`. -/
def removeService (reg : Registry) (nm : String) (ex : Sig → Bool) :
    Registry × StopOutcome × List InfoM :=
  match lookupService reg nm with
  | none => (reg, .ok, [])
  | some srv =>
      match stop srv.st ex with
      | (_, .failed, _) => (reg, .failed, [])
      | (st1, .ok, _) =>
          (reg.filter (fun e => e.1 ≠ nm), .ok,
            [{ infoOf { conf := srv.conf, st := st1 } with dead := true }])

/-- The conf mutation of `changeServicePermanence` (part_020, lines
236-242). -/
def setPermanence (srv : Srv) (temp : Bool) (cleanAfter : Int) : Srv :=
  if temp then
    { srv with conf := { srv.conf with temp := true, cleanAfter := cleanAfter } }
  else
    { srv with conf := { srv.conf with temp := false, cleanAfter := 0 } }

/-- `changeServicePermanence` (part_020, lines 227-245): `none` models
the `false` return for an unknown name. -/
def changeServicePermanence (reg : Registry) (nm : String) (temp : Bool)
    (cleanAfter : Int) : Option Registry :=
  match lookupService reg nm with
  | none => none
  | some _ =>
      some (reg.map (fun e => if e.1 = nm then (e.1, setPermanence e.2 temp cleanAfter) else e))

/-- `addService` (part_020, lines 177-202): fail when present without
`replace`, fail when present and running, otherwise store.  The
best-effort event publication and the asynchronous auto-start goroutine
do not change the registry and are not modelled. -/
def addService (reg : Registry) (srv : Srv) (replace : Bool) : Except String Registry :=
  match lookupService reg srv.conf.name with
  | none => .ok (reg ++ [(srv.conf.name, srv)])
  | some current =>
      if replace = false then
        .error "Service already exists"
      else if running current.st then
        .error "Cannot replace a running service"
      else
        .ok (reg.map (fun e => if e.1 = srv.conf.name then (e.1, srv) else e))

/-! ### `Server.List` (src/unnamed/part_024, lines 53-68) -/

structure ListArgs where
  /-- "If true, only running services are listed" -/
  running : Bool
  /-- "If true, only temporary services are listed" -/
  temp : Bool
deriving Repr, DecidableEq

/-- The `List` handler body: `for _, serv := range s.listServices() {
if !args.Running || serv.Running() { reply.Services = append(...) } }`.
Note the loop never reads `args.Temp`. -/
def listHandler (reg : Registry) (args : ListArgs) : List InfoM :=
  (reg.map (fun e => e.2)).filterMap
    (fun srv => if !args.running || running srv.st then some (infoOf srv) else none)

/-! ### `Server.Clean` (src/unnamed/part_027, lines 79-113)

`filepath.Match` is Go standard-library glob matching (an external
collaborator per spec §1); it is passed in abstractly as
`glob pattern name`, returning `.error ()` for a malformed pattern
(Go `ErrBadPattern`, with a `false` match result). -/

/-- The per-service removal condition of `Clean`:
`info.Temp && !info.Running && matches && (args.Age == 0 || now.Sub(info.EndTime) >= args.Age)`,
where `matches, _ := filepath.Match(pattern, info.Name)` drops the
error (a failed match counts as no match). -/
def cleanCond (glob : String → String → Except Unit Bool) (pattern : String)
    (age now : Int) (srv : Srv) : Bool :=
  let info := infoOf srv
  let isMatch := match glob pattern info.conf.name with
    | .ok b => b
    | .error _ => false
  info.conf.temp && !info.running && isMatch &&
    (decide (age = 0) || decide (now - info.endTime ≥ age))

/-- The `Clean` loop over the snapshot of `listServices()`, threading
the live registry; returns the final registry, the `Cleaned` infos and
the `Failed` infos, in iteration order. -/
def cleanLoop (glob : String → String → Except Unit Bool) (pattern : String)
    (age now : Int) (ex : Sig → Bool) :
    List (String × Srv) → Registry → Registry × List InfoM × List InfoM
  | [], reg => (reg, [], [])
  | e :: rest, reg =>
      if cleanCond glob pattern age now e.2 then
        match removeService reg e.1 ex with
        | (reg1, .ok, _) =>
            match cleanLoop glob pattern age now ex rest reg1 with
            | (regF, cleaned, failed) => (regF, infoOf e.2 :: cleaned, failed)
        | (reg1, .failed, _) =>
            match cleanLoop glob pattern age now ex rest reg1 with
            | (regF, cleaned, failed) => (regF, cleaned, infoOf e.2 :: failed)
      else
        cleanLoop glob pattern age now ex rest reg

/-- `Server.Clean`: default an empty pattern to `"*"`, pre-check the
pattern by matching it against the empty string (failing before any
removal), then sweep the registry snapshot. -/
def clean (reg : Registry) (glob : String → String → Except Unit Bool)
    (pattern0 : String) (age now : Int) (ex : Sig → Bool) :
    Except String (Registry × List InfoM × List InfoM) :=
  match glob (if pattern0 = "" then "*" else pattern0) "" with
  | .error _ => .error "Bad service name pattern"
  | .ok _ =>
      .ok (cleanLoop glob (if pattern0 = "" then "*" else pattern0) age now ex reg reg)

/-! ### `Server.openFifo` (src/unnamed/part_020, lines 375-399) -/

/-- `HeartbeatInterval = 10 * time.Second` (src/unnamed/part_001, lines
69-71), in nanoseconds. -/
def heartbeatInterval : Int := 10 * 1000000000

/-- Outcome of `os.Stat` on the rendezvous file. -/
inductive StatResult
  | notExist
  | statError
  | ok (modTime : Int)
deriving Repr, DecidableEq

inductive OpenFifoResult
  | listener
  | errActiveServer
  | errStat
  | errRemove
  | errListen
deriving Repr, DecidableEq

/-- `openFifo`: stat the rendezvous file; a fresh file (modified within
`2 × HeartbeatInterval`) means another active server; a stale file is
removed; then the listener is created.  `removeOk`/`listenOk` model the
success of `os.Remove`/`net.ListenUnix`.  The second component records
whether the stale file was unlinked. -/
def openFifo (st : StatResult) (now : Int) (removeOk listenOk : Bool) :
    OpenFifoResult × Bool :=
  match st with
  | .statError => (.errStat, false)
  | .ok modTime =>
      if now - modTime < heartbeatInterval * 2 then
        (.errActiveServer, false)
      else if removeOk then
        (if listenOk then (.listener, true) else (.errListen, true))
      else
        (.errRemove, false)
  | .notExist => (if listenOk then (.listener, false) else (.errListen, false))

/-! ## Theorems on the service lifecycle and server handlers -/

theorem stopSpecLoop_ok_iff (s : ServiceState) (exits : SigTarget → Sig → Bool)
    (l sent : List (SigTarget × Sig)) :
    (stopSpecLoop s exits l sent).2.1 = .ok ↔ ∃ a ∈ l, exits a.1 a.2 = true := by
  induction l generalizing sent with
  | nil => simp [stopSpecLoop]
  | cons a rest ih =>
      by_cases ha : exits a.1 a.2 = true
      · simp [stopSpecLoop, ha]
      · simp only [stopSpecLoop]
        rw [if_neg ha, ih]
        simp only [List.mem_cons]
        simp only [Bool.not_eq_true] at ha
        constructor
        · rintro ⟨b, hb, hbe⟩
          exact ⟨b, Or.inr hb, hbe⟩
        · rintro ⟨b, hb | hb, hbe⟩
          · rw [hb] at hbe
            rw [hbe] at ha
            cases ha
          · exact ⟨b, hb, hbe⟩

theorem stopSpecLoop_userStopped (s : ServiceState) (exits : SigTarget → Sig → Bool)
    (l sent : List (SigTarget × Sig)) (h : (stopSpecLoop s exits l sent).2.1 = .ok) :
    (stopSpecLoop s exits l sent).1.userStopped = true := by
  induction l generalizing sent with
  | nil => simp [stopSpecLoop] at h
  | cons a rest ih =>
      by_cases ha : exits a.1 a.2 = true
      · simp [stopSpecLoop, ha]
      · rw [stopSpecLoop, if_neg (by simp [ha])] at h ⊢
        exact ih _ h

theorem stopSpecLoop_exhausted (s : ServiceState) (exits : SigTarget → Sig → Bool)
    (l sent : List (SigTarget × Sig)) (h : ∀ a ∈ l, exits a.1 a.2 = false) :
    stopSpecLoop s exits l sent = (s, .failed, sent ++ l) := by
  induction l generalizing sent with
  | nil => simp [stopSpecLoop]
  | cons a rest ih =>
      have ha := h a (by simp)
      rw [stopSpecLoop, if_neg (by simp [ha]),
        ih (sent ++ [a]) (fun b hb => h b (by simp [hb]))]
      simp

/-- C2 (spec-modelled): for a running service, `Stop(escalationInterval)`
tries INT, TERM, KILL against the pid and then against the negated
process-group id, waiting `escalationInterval` (default 10 s) after
each send; it returns ok with `userStopped = true` exactly when some
attempt observes the exit, and returns stop-error with all six attempts
sent when none does. -/
theorem stopSpec_escalation (s : ServiceState) (exits : SigTarget → Sig → Bool)
    (hrun : running s = true) :
    stopAttempts = [(SigTarget.pid, Sig.int), (SigTarget.pid, Sig.term),
      (SigTarget.pid, Sig.kill), (SigTarget.negPgid, Sig.int),
      (SigTarget.negPgid, Sig.term), (SigTarget.negPgid, Sig.kill)] ∧
    escalationWait 0 = 10 * 1000000000 ∧
    ((stopSpec s exits).2.1 = .ok ↔ ∃ a ∈ stopAttempts, exits a.1 a.2 = true) ∧
    ((stopSpec s exits).2.1 = .ok → (stopSpec s exits).1.userStopped = true) ∧
    ((∀ a ∈ stopAttempts, exits a.1 a.2 = false) →
      (stopSpec s exits).2.1 = .failed ∧ (stopSpec s exits).2.2 = stopAttempts) := by
  have hcond : ¬ running s = false := by simp [hrun]
  refine ⟨rfl, rfl, ?_, ?_, ?_⟩
  · rw [stopSpec, if_neg hcond]
    exact stopSpecLoop_ok_iff s exits stopAttempts []
  · rw [stopSpec, if_neg hcond]
    exact stopSpecLoop_userStopped s exits stopAttempts []
  · intro hall
    rw [stopSpec, if_neg hcond, stopSpecLoop_exhausted s exits stopAttempts [] hall]
    exact ⟨rfl, by simp⟩

/-- A running-service state: `startChan` closed, `exitChan` open. -/
def runningSt : ServiceState :=
  ⟨false, true, false, 0⟩

/-- C2-witness: a service with `exitChan` open, whose process exits on
the first INT to the pid: `stopSpec` returns ok with `userStopped`. -/
theorem stopSpec_escalation_witness :
    running runningSt = true ∧
    ((stopSpec runningSt (fun _ _ => true)).2.1 = .ok ↔
      ∃ a ∈ stopAttempts, (fun (_ : SigTarget) (_ : Sig) => true) a.1 a.2 = true) :=
  ⟨by decide, (stopSpec_escalation runningSt (fun _ _ => true) (by decide)).2.2.1⟩

/-- C9: a freshly created Service (`New`) has `exitChan` closed and
`startChan` open, so it reports not running, `Wait` returns
immediately, and `Stop` returns ok without sending any signal and
without changing the state. -/
theorem new_service_unstarted :
    running newService = false ∧
    waitReturnsImmediately newService = true ∧
    newService.exitChanClosed = true ∧
    newService.startChanClosed = false ∧
    (∀ exits : Sig → Bool, stop newService exits = (newService, .ok, [])) :=
  ⟨rfl, rfl, rfl, rfl, fun _ => rfl⟩

/-- C7: `Stop` on a non-running service returns ok having sent no
signal and leaving the state unchanged, and `removeService` of a name
absent from the registry returns ok leaving the registry unchanged and
publishing nothing. -/
theorem stop_and_remove_idempotent :
    (∀ (s : ServiceState) (exits : Sig → Bool), running s = false →
      stop s exits = (s, .ok, [])) ∧
    (∀ (reg : Registry) (nm : String) (ex : Sig → Bool), lookupService reg nm = none →
      removeService reg nm ex = (reg, .ok, [])) := by
  constructor
  · intro s exits h
    rw [stop, if_pos h]
  · intro reg nm ex h
    rw [removeService, h]

/-- C7-witness: instantiation at an exited service and an empty
registry. -/
theorem stop_and_remove_idempotent_witness :
    stop newService (fun _ => true) = (newService, .ok, []) ∧
    removeService [] "gone" (fun _ => true) = ([], .ok, []) :=
  ⟨stop_and_remove_idempotent.1 newService (fun _ => true) (by decide),
    stop_and_remove_idempotent.2 [] "gone" (fun _ => true) (by decide)⟩

/-- A minimal permanent (non-temp) service config for concrete runs. -/
def plainConf (nm prog : String) : SrvConf :=
  ⟨nm, prog, [], "/", [], false, false, false, 0⟩

/-- C8: the `List` handler ignores `args.Temp`.  With `temp = true`
requested, a registry holding one running, non-temporary service still
comes back in the reply, although its config has `temp = false`; the
claim would require it to be filtered out. -/
theorem list_ignores_temp_filter :
    (listHandler [("svc", ⟨plainConf "svc" "prog", runningSt⟩)]
        { running := false, temp := true }).map (fun i => (i.conf.name, i.conf.temp)) =
      [("svc", false)] := by
  decide

/-- C6: opening the IPC endpoint fails with the another-instance-running
error exactly when the rendezvous file exists (stat succeeded) and its
modification time is fresher than `2 × HeartbeatInterval` (= 20 s); when
the file exists but is stale, it is unlinked and the listener is created
on that address (given the unlink and listen syscalls succeed). -/
theorem openFifo_single_instance (st : StatResult) (now : Int) (removeOk listenOk : Bool) :
    heartbeatInterval * 2 = 20 * 1000000000 ∧
    ((openFifo st now removeOk listenOk).1 = .errActiveServer ↔
      ∃ modTime, st = .ok modTime ∧ now - modTime < heartbeatInterval * 2) ∧
    (∀ modTime, st = .ok modTime → heartbeatInterval * 2 ≤ now - modTime →
      removeOk = true → listenOk = true →
      openFifo st now removeOk listenOk = (.listener, true)) := by
  refine ⟨rfl, ?_, ?_⟩
  · cases st with
    | notExist =>
        constructor
        · intro h
          cases listenOk <;> simp [openFifo] at h
        · rintro ⟨m, hm, -⟩
          cases hm
    | statError =>
        constructor
        · intro h
          simp [openFifo] at h
        · rintro ⟨m, hm, -⟩
          cases hm
    | ok modTime =>
        constructor
        · intro h
          refine ⟨modTime, rfl, ?_⟩
          by_contra hfresh
          rw [openFifo, if_neg hfresh] at h
          cases removeOk <;> cases listenOk <;> simp at h
        · rintro ⟨m, hm, hlt⟩
          cases hm
          rw [openFifo, if_pos hlt]
  · intro modTime hst hstale hrm hls
    cases hst
    rw [hrm, hls, openFifo, if_neg (by omega), if_pos rfl]
    rfl

/-- C6-witness: a file last touched 25 s ago (now = 25 s, modTime = 0)
is stale: it is removed and the listener is created. -/
theorem openFifo_single_instance_witness :
    openFifo (.ok 0) 25000000000 true true = (.listener, true) :=
  (openFifo_single_instance (.ok 0) 25000000000 true true).2.2 0 rfl (by decide) rfl rfl

/-! ### Theorems about `Clean` -/

theorem lookup_cons_ne (d : String × Srv) (l : Registry) (nm : String) (h : ¬ d.1 = nm) :
    lookupService (d :: l) nm = lookupService l nm := by
  simp only [lookupService, List.find?_cons]
  rw [show (d.1 == nm) = false by simpa using h]

theorem lookup_cons_self (d : String × Srv) (l : Registry) :
    lookupService (d :: l) d.1 = some d.2 := by
  simp only [lookupService, List.find?_cons]
  rw [show (d.1 == d.1) = true by simp]
  rfl

theorem lookup_append_cons (done rest : Registry) (e : String × Srv)
    (h : ∀ d ∈ done, ¬ d.1 = e.1) :
    lookupService (done ++ e :: rest) e.1 = some e.2 := by
  induction done with
  | nil => exact lookup_cons_self e rest
  | cons d ds ih =>
      rw [List.cons_append, lookup_cons_ne d _ _ (h d (by simp))]
      exact ih (fun x hx => h x (by simp [hx]))

theorem filter_ne_of_no_name (l : Registry) (nm : String) (h : ∀ d ∈ l, ¬ d.1 = nm) :
    l.filter (fun x => x.1 ≠ nm) = l := by
  rw [List.filter_eq_self]
  intro a ha
  simpa using h a ha

theorem filter_ne_append_cons (done rest : Registry) (e : String × Srv)
    (hd : ∀ d ∈ done, ¬ d.1 = e.1) (hr : ∀ d ∈ rest, ¬ d.1 = e.1) :
    (done ++ e :: rest).filter (fun x => x.1 ≠ e.1) = done ++ rest := by
  rw [List.filter_append, List.filter_cons]
  rw [show (decide (e.1 ≠ e.1)) = false by simp]
  simp only [Bool.false_eq_true, if_false]
  rw [filter_ne_of_no_name done e.1 hd, filter_ne_of_no_name rest e.1 hr]

/-- The `Clean` condition requires the service not to be running. -/
theorem cleanCond_not_running (glob : String → String → Except Unit Bool)
    (pattern : String) (age now : Int) (srv : Srv)
    (h : cleanCond glob pattern age now srv = true) : running srv.st = false := by
  simp only [cleanCond, infoOf, Bool.and_eq_true, Bool.not_eq_true'] at h
  exact h.1.1.2

/-- Closed form of the `Clean` sweep: with unique registry names,
iterating the snapshot while removing from the live registry removes
exactly the entries satisfying the condition, reports their infos in
order, and never fails. -/
theorem cleanLoop_closed (glob : String → String → Except Unit Bool)
    (pattern : String) (age now : Int) (ex : Sig → Bool) :
    ∀ (rest done : Registry), (((done ++ rest).map (fun e => e.1)).Nodup) →
      cleanLoop glob pattern age now ex rest (done ++ rest) =
        (done ++ rest.filter (fun e => !cleanCond glob pattern age now e.2),
          (rest.filter (fun e => cleanCond glob pattern age now e.2)).map
            (fun e => infoOf e.2),
          []) := by
  intro rest
  induction rest with
  | nil =>
      intro done _
      simp [cleanLoop]
  | cons e rest' ih =>
      intro done hnd
      have hnames : ((done.map (fun x => x.1)) ++
          (e.1 :: rest'.map (fun x => x.1))).Nodup := by
        simpa using hnd
      rw [List.nodup_append] at hnames
      have hd : ∀ d ∈ done, ¬ d.1 = e.1 := by
        intro d hdm heq
        exact hnames.2.2 (List.mem_map_of_mem _ hdm) (by simp [heq])
      have hr : ∀ d ∈ rest', ¬ d.1 = e.1 := by
        intro d hdm heq
        have := hnames.2.1
        rw [List.nodup_cons] at this
        exact this.1 (by
          have : d.1 ∈ rest'.map (fun x => x.1) := List.mem_map_of_mem _ hdm
          simpa [heq] using this)
      by_cases hc : cleanCond glob pattern age now e.2 = true
      · have hlk := lookup_append_cons done rest' e hd
        have hnr : running e.2.st = false := cleanCond_not_running _ _ _ _ _ hc
        have hstop : stop e.2.st ex = (e.2.st, .ok, []) := by
          rw [stop, if_pos hnr]
        have hrm : removeService (done ++ e :: rest') e.1 ex =
            (done ++ rest', .ok,
              [{ infoOf { conf := e.2.conf, st := e.2.st } with dead := true }]) := by
          rw [removeService, hlk]
          show (match stop e.2.st ex with
            | (_, StopOutcome.failed, _) => (done ++ e :: rest', StopOutcome.failed, [])
            | (st1, StopOutcome.ok, _) =>
                ((done ++ e :: rest').filter (fun x => x.1 ≠ e.1), StopOutcome.ok,
                  [{ infoOf { conf := e.2.conf, st := st1 } with dead := true }])) = _
          rw [hstop]
          show ((done ++ e :: rest').filter (fun x => x.1 ≠ e.1), StopOutcome.ok,
            [{ infoOf { conf := e.2.conf, st := e.2.st } with dead := true }]) = _
          rw [filter_ne_append_cons done rest' e hd hr]
        have hnd2 : (((done ++ rest').map (fun x => x.1)).Nodup) := by
          have hsub : (done ++ rest').Sublist (done ++ e :: rest') :=
            List.Sublist.append (List.Sublist.refl done) (List.sublist_cons_self e rest')
          exact List.Nodup.sublist (hsub.map (fun x => x.1)) hnd
        rw [cleanLoop, if_pos hc, hrm]
        show (match cleanLoop glob pattern age now ex rest' (done ++ rest') with
          | (regF, cleaned, failed) => (regF, infoOf e.2 :: cleaned, failed)) = _
        rw [ih done hnd2]
        show (done ++ rest'.filter (fun x => !cleanCond glob pattern age now x.2),
          infoOf e.2 ::
            (rest'.filter (fun x => cleanCond glob pattern age now x.2)).map
              (fun x => infoOf x.2), ([] : List InfoM)) = _
        rw [List.filter_cons, List.filter_cons]
        simp [hc]
      · have hstep : cleanLoop glob pattern age now ex (e :: rest') (done ++ e :: rest') =
            cleanLoop glob pattern age now ex rest' ((done ++ [e]) ++ rest') := by
          rw [cleanLoop, if_neg hc]
          rw [List.append_assoc, List.singleton_append]
        rw [hstep, ih (done ++ [e]) (by simpa using hnd)]
        rw [List.filter_cons, List.filter_cons]
        simp [hc]

/-- C10: `Clean` with an empty name pattern behaves as pattern `"*"`
(which matches every name); with `age = 0` it removes exactly the
temporary, non-running services — regardless of their end times, which
do not appear in the characterization — and a malformed pattern
(rejected by the pre-check `Match(pattern, "")`) makes `Clean` fail
before removing anything. -/
theorem clean_spec (reg : Registry) (glob : String → String → Except Unit Bool)
    (age now : Int) (ex : Sig → Bool)
    (hstar : ∀ n, glob "*" n = Except.ok true)
    (hnd : ((reg.map (fun e => e.1)).Nodup)) :
    clean reg glob "" 0 now ex = clean reg glob "*" 0 now ex ∧
    clean reg glob "*" 0 now ex =
      Except.ok (reg.filter (fun e => !(e.2.conf.temp && !running e.2.st)),
        (reg.filter (fun e => e.2.conf.temp && !running e.2.st)).map (fun e => infoOf e.2),
        []) ∧
    (∀ pat, ¬ pat = "" → glob pat "" = Except.error () →
      clean reg glob pat age now ex = Except.error "Bad service name pattern") := by
  have hcond : ∀ srv : Srv, cleanCond glob "*" 0 now srv =
      (srv.conf.temp && !running srv.st) := by
    intro srv
    simp [cleanCond, infoOf, hstar srv.conf.name]
  refine ⟨?_, ?_, ?_⟩
  · rfl
  · rw [clean, if_neg (by decide : ¬ ("*" : String) = ""), hstar ""]
    show Except.ok (cleanLoop glob "*" 0 now ex reg reg) = _
    have hccl := cleanLoop_closed glob "*" 0 now ex reg [] (by simpa using hnd)
    rw [List.nil_append] at hccl
    rw [hccl]
    simp only [hcond]
    rfl
  · intro pat hne herr
    rw [clean, if_neg hne, herr]

/-- C10-witness: a registry with one exited temp service and one
running permanent one; `Clean` with an empty pattern and age 0 removes
exactly the temp one, and the malformed pattern `"["` is rejected. -/
theorem clean_spec_witness :
    clean
        [("t", ⟨{ plainConf "t" "p" with temp := true }, newService⟩),
          ("r", ⟨plainConf "r" "q", runningSt⟩)]
        (fun p _ => if p = "[" then Except.error () else Except.ok true) "" 0 99 (fun _ => true) =
      clean
        [("t", ⟨{ plainConf "t" "p" with temp := true }, newService⟩),
          ("r", ⟨plainConf "r" "q", runningSt⟩)]
        (fun p _ => if p = "[" then Except.error () else Except.ok true) "*" 0 99 (fun _ => true) ∧
    clean
        [("t", ⟨{ plainConf "t" "p" with temp := true }, newService⟩),
          ("r", ⟨plainConf "r" "q", runningSt⟩)]
        (fun p _ => if p = "[" then Except.error () else Except.ok true) "[" 7 99 (fun _ => true) =
      Except.error "Bad service name pattern" := by
  have h := clean_spec
    [("t", ⟨{ plainConf "t" "p" with temp := true }, newService⟩),
      ("r", ⟨plainConf "r" "q", runningSt⟩)]
    (fun p _ => if p = "[" then Except.error () else Except.ok true) 7 99 (fun _ => true)
    (fun _ => rfl) (by decide)
  exact ⟨h.1, h.2.2 "[" (by decide) rfl⟩

/-! ### `Server.LoadServices` (src/unnamed/part_028, lines 27-133)

`config.LoadServiceFile` is deterministic for an unchanged file (the
`Sanitize` in its loop mutates a range copy, so the returned confs are
exactly the parsed ones), so both calls of the idempotence claim see the
same conf list, which is taken here as the input. -/

structure LoadReply where
  newServices : List InfoM
  updatedServices : List InfoM
  deprecatedServices : List InfoM
  removedServices : List String
deriving Repr, DecidableEq

def emptyReply : LoadReply := ⟨[], [], [], []⟩

/-- `EqualIgnoringSafeFields` (src/unnamed/part_002, lines 66-90): deep
copy the other conf, overwrite the safe fields (`autoStart`,
`restartOnExit`, `temp`, `cleanAfter`) from the receiver, then
deep-equal. -/
def equalIgnoringSafeFields (s s2 : SrvConf) : Bool :=
  decide ({ s2 with autoStart := s.autoStart, restartOnExit := s.restartOnExit, temp := s.temp, cleanAfter := s.cleanAfter } = s)

/-- The safe-field mutations the `EqualIgnoringSafeFields` branch of
`LoadServices` applies to the running service's conf (part_028, lines
84-99): un-temp-ify when the new conf is permanent
(`changeServicePermanence(name, false, 0)` — it always finds the name
just looked up), overwrite `autoStart`, and flip `restartOnExit` (the
restart-watch registration does not touch the registry). -/
def safeMutate (old target : SrvConf) : SrvConf :=
  let c1 := if old.temp ∧ ¬ target.temp then
      { old with temp := false, cleanAfter := 0 }
    else old
  let c2 := { c1 with autoStart := target.autoStart }
  if ¬ c2.restartOnExit ∧ target.restartOnExit then
    { c2 with restartOnExit := true }
  else if c2.restartOnExit ∧ ¬ target.restartOnExit then
    { c2 with restartOnExit := false }
  else c2

/-- Set the conf of the registry entry named `nm` (the effect of the
safe-field branch writing through the `srvc` pointer). -/
def setConf (reg : Registry) (nm : String) (conf : SrvConf) : Registry :=
  reg.map (fun x => if x.1 = nm then (x.1, { x.2 with conf := conf }) else x)

/-- One iteration of the first `LoadServices` loop, for one conf from
the file: add when unknown; skip when deep-equal; replace (with a fresh
instance from `service.New`) when not running; apply safe mutations and
check they reproduced the conf when running and safely equal; error
otherwise. -/
def pass1Step (reg : Registry) (rep : LoadReply) (conf : SrvConf) :
    Except String (Registry × LoadReply) :=
  match lookupService reg conf.name with
  | none =>
      match addService reg ⟨conf, newService⟩ false with
      | .error e => .error e
      | .ok reg1 =>
          .ok (reg1, { rep with newServices :=
            rep.newServices ++ [infoOf ⟨conf, newService⟩] })
  | some srvc =>
      if srvc.conf = conf then
        .ok (reg, rep)
      else if running srvc.st = false then
        match addService reg ⟨conf, newService⟩ true with
        | .error e => .error e
        | .ok reg1 =>
            .ok (reg1, { rep with updatedServices :=
              rep.updatedServices ++ [infoOf ⟨conf, newService⟩] })
      else if equalIgnoringSafeFields srvc.conf conf then
        if safeMutate srvc.conf conf = conf then
          .ok (setConf reg conf.name conf,
            { rep with updatedServices :=
              rep.updatedServices ++ [infoOf ⟨conf, srvc.st⟩] })
        else
          .error "Failed to fully apply conf changes to service"
      else
        .error "Cannot apply these changes to a running service"

def pass1 : Registry → LoadReply → List SrvConf → Except String (Registry × LoadReply)
  | reg, rep, [] => .ok (reg, rep)
  | reg, rep, c :: rest =>
      match pass1Step reg rep c with
      | .error e => .error e
      | .ok (reg1, rep1) => pass1 reg1 rep1 rest

/-- One iteration of the second `LoadServices` loop (removed-services
check), for one entry of the snapshot taken after the first loop: skip
when the name is in the file; remove (the error of `removeService` is
ignored, the name is reported removed regardless) when not running;
mark temp with immediate cleanup and report deprecated when running. -/
def pass2Step (confNames : List String) (ex : Sig → Bool)
    (reg : Registry) (rep : LoadReply) (e : String × Srv) :
    Except String (Registry × LoadReply) :=
  if confNames.contains e.1 then
    .ok (reg, rep)
  else if running e.2.st = false then
    .ok ((removeService reg e.1 ex).1,
      { rep with removedServices := rep.removedServices ++ [e.1] })
  else
    match changeServicePermanence reg e.1 true 0 with
    | none => .error "Failed to set a removed, but still running service as temporary"
    | some reg1 =>
        .ok (reg1, { rep with deprecatedServices :=
          rep.deprecatedServices ++ [infoOf (setPermanence e.2 true 0)] })

def pass2 (confNames : List String) (ex : Sig → Bool) :
    List (String × Srv) → Registry → LoadReply → Except String (Registry × LoadReply)
  | [], reg, rep => .ok (reg, rep)
  | e :: rest, reg, rep =>
      match pass2Step confNames ex reg rep e with
      | .error er => .error er
      | .ok (reg1, rep1) => pass2 confNames ex rest reg1 rep1

/-- `LoadServices`: first loop over the confs from the file, then the
removed-services loop over the snapshot of the registry taken after the
first loop. -/
def loadServices (reg : Registry) (confs : List SrvConf) (ex : Sig → Bool) :
    Except String (Registry × LoadReply) :=
  match pass1 reg emptyReply confs with
  | .error e => .error e
  | .ok (reg1, rep1) => pass2 (confs.map (fun c => c.name)) ex reg1 reg1 rep1

/-! ### Theorems about `LoadServices` -/

/-- C5-counterexample: a registry holding one running service absent
from the (unchanged, here empty) definition file.  The first call marks
it temp and reports it deprecated; the second call on the resulting
registry reports it deprecated again, so the second call's
`DeprecatedServices` is not empty as the claim demands (the registry,
however, is unchanged). -/
theorem loadServices_not_idempotent :
    loadServices [("x", ⟨plainConf "x" "p", runningSt⟩)] [] (fun _ => false) =
      Except.ok ([("x", ⟨{ plainConf "x" "p" with temp := true }, runningSt⟩)],
        { newServices := [], updatedServices := [],
          deprecatedServices := [infoOf ⟨{ plainConf "x" "p" with temp := true }, runningSt⟩],
          removedServices := [] }) ∧
    loadServices [("x", ⟨{ plainConf "x" "p" with temp := true }, runningSt⟩)] []
        (fun _ => false) =
      Except.ok ([("x", ⟨{ plainConf "x" "p" with temp := true }, runningSt⟩)],
        { newServices := [], updatedServices := [],
          deprecatedServices := [infoOf ⟨{ plainConf "x" "p" with temp := true }, runningSt⟩],
          removedServices := [] }) ∧
    [infoOf ⟨{ plainConf "x" "p" with temp := true }, runningSt⟩] ≠ ([] : List InfoM) :=
  ⟨rfl, rfl, by decide⟩

theorem lookup_none_not_mem (reg : Registry) (nm : String)
    (h : lookupService reg nm = none) : ¬ nm ∈ reg.map (fun x => x.1) := by
  induction reg with
  | nil => simp
  | cons d rest ih =>
      by_cases hd : d.1 = nm
      · rw [← hd, lookup_cons_self] at h
        cases h
      · rw [lookup_cons_ne d rest nm hd] at h
        simp only [List.map_cons, List.mem_cons]
        rintro (hmem | hmem)
        · exact hd hmem.symm
        · exact ih h hmem

theorem lookup_isNone_iff_find? (reg : Registry) (nm : String) :
    lookupService reg nm = none ↔ reg.find? (fun e => e.1 == nm) = none := by
  rw [lookupService]
  cases reg.find? (fun e => e.1 == nm) <;> simp

theorem lookup_append_single_hit (reg : Registry) (x : String × Srv)
    (h : lookupService reg x.1 = none) :
    lookupService (reg ++ [x]) x.1 = some x.2 := by
  rw [lookupService, List.find?_append, (lookup_isNone_iff_find? reg x.1).mp h,
    List.find?_cons_of_pos _ (by simp)]
  rfl

theorem lookup_append_single_miss (reg : Registry) (x : String × Srv) (nm : String)
    (hne : ¬ x.1 = nm) :
    lookupService (reg ++ [x]) nm = lookupService reg nm := by
  rw [lookupService, List.find?_append, lookupService]
  have hx : List.find? (fun e => e.1 == nm) [x] = none := by
    rw [List.find?_cons_of_neg _ (by simpa using hne)]
    rfl
  rw [hx]
  cases List.find? (fun e => e.1 == nm) reg <;> rfl

/-- Look up a cons cell whose head carries the searched name. -/
theorem lookup_cons_eq_name (d : String × Srv) (l : Registry) (nm : String)
    (h : d.1 = nm) : lookupService (d :: l) nm = some d.2 := by
  subst h
  exact lookup_cons_self d l

/-- Looking up in a registry whose entry named `nm` was rewritten by
`g`: the keyed map touches exactly that name. -/
theorem lookup_keyed_map (g : Srv → Srv) (reg : Registry) (nm nm' : String) :
    lookupService (reg.map (fun x => if x.1 = nm then (x.1, g x.2) else x)) nm' =
      if nm' = nm then (lookupService reg nm).map g else lookupService reg nm' := by
  induction reg with
  | nil => by_cases h : nm' = nm <;> simp [lookupService, h]
  | cons d rest ih =>
      rw [List.map_cons]
      by_cases hd : d.1 = nm
      · rw [if_pos hd]
        by_cases h3 : nm' = nm
        · rw [lookup_cons_eq_name (d.1, g d.2) _ nm' (by rw [hd, h3]),
            if_pos h3, lookup_cons_eq_name d rest nm (by rw [hd])]
          rfl
        · rw [lookup_cons_ne (d.1, g d.2) _ nm'
              (show ¬ d.1 = nm' from by rw [hd]; exact fun he => h3 he.symm),
            ih, if_neg h3, if_neg h3,
            lookup_cons_ne d rest nm'
              (show ¬ d.1 = nm' from by rw [hd]; exact fun he => h3 he.symm)]
      · rw [if_neg hd]
        by_cases h2 : d.1 = nm'
        · have h3 : ¬ nm' = nm := fun he => hd (h2.trans he)
          rw [lookup_cons_eq_name d _ nm' h2, if_neg h3,
            lookup_cons_eq_name d rest nm' h2]
        · rw [lookup_cons_ne d _ nm' h2, ih]
          by_cases h3 : nm' = nm
          · rw [if_pos h3, if_pos h3,
              lookup_cons_ne d rest nm (show ¬ d.1 = nm from hd)]
          · rw [if_neg h3, if_neg h3, lookup_cons_ne d rest nm' h2]

/-- The keyed map preserves the name column. -/
theorem names_keyed_map (g : Srv → Srv) (reg : Registry) (nm : String) :
    (reg.map (fun x => if x.1 = nm then (x.1, g x.2) else x)).map (fun x => x.1) =
      reg.map (fun x => x.1) := by
  induction reg with
  | nil => rfl
  | cons d rest ih =>
      by_cases hd : d.1 = nm <;> simp [hd, ih]

/-- Mapping an entry-wise function that keeps names leaves the name
column unchanged. -/
theorem names_map_fst (reg : Registry) (f : String × Srv → String × Srv)
    (hf : ∀ x, (f x).1 = x.1) :
    (reg.map f).map (fun x => x.1) = reg.map (fun x => x.1) := by
  induction reg with
  | nil => rfl
  | cons d rest ih => simp [hf, ih]

theorem names_setConf (reg : Registry) (nm : String) (c : SrvConf) :
    (setConf reg nm c).map (fun x => x.1) = reg.map (fun x => x.1) := by
  rw [setConf]
  exact names_map_fst reg _ (fun x => by by_cases hx : x.1 = nm <;> simp [hx])

theorem addService_absent (reg : Registry) (srv : Srv) (replace : Bool)
    (h : lookupService reg srv.conf.name = none) :
    addService reg srv replace = .ok (reg ++ [(srv.conf.name, srv)]) := by
  rw [addService, h]

theorem addService_replace_ok (reg : Registry) (srv current : Srv)
    (h : lookupService reg srv.conf.name = some current)
    (hrun : running current.st = false) :
    addService reg srv true =
      .ok (reg.map (fun e => if e.1 = srv.conf.name then (e.1, srv) else e)) := by
  rw [addService, h]
  simp [hrun]

/-- What one successful `pass1Step` guarantees: the processed conf is
now in the registry verbatim, every other name is untouched, and name
uniqueness is preserved. -/
theorem pass1Step_ok (reg : Registry) (rep : LoadReply) (c : SrvConf)
    (reg1 : Registry) (rep1 : LoadReply)
    (h : pass1Step reg rep c = .ok (reg1, rep1)) :
    (∃ srv, lookupService reg1 c.name = some srv ∧ srv.conf = c) ∧
    (∀ nm, ¬ nm = c.name → lookupService reg1 nm = lookupService reg nm) ∧
    ((reg.map (fun x => x.1)).Nodup → (reg1.map (fun x => x.1)).Nodup) := by
  rcases hlk : lookupService reg c.name with _ | srvc
  · have hadd := addService_absent reg ⟨c, newService⟩ false hlk
    rw [pass1Step, hlk] at h
    have h2 : (match addService reg ⟨c, newService⟩ false with
        | Except.error e => (Except.error e : Except String (Registry × LoadReply))
        | Except.ok reg2 =>
            Except.ok (reg2, { rep with newServices :=
              rep.newServices ++ [infoOf ⟨c, newService⟩] })) = Except.ok (reg1, rep1) := h
    rw [hadd] at h2
    have h3 : (Except.ok ((reg ++ [(c.name, (⟨c, newService⟩ : Srv))],
        { rep with newServices := rep.newServices ++ [infoOf ⟨c, newService⟩] })) :
          Except String (Registry × LoadReply)) = Except.ok (reg1, rep1) := h2
    injection h3 with h4
    injection h4 with h5 h6
    subst h5
    refine ⟨⟨⟨c, newService⟩, lookup_append_single_hit reg (c.name, ⟨c, newService⟩) hlk, rfl⟩,
      ?_, ?_⟩
    · intro nm hnm
      exact lookup_append_single_miss reg (c.name, ⟨c, newService⟩) nm
        (fun he => hnm he.symm)
    · intro hnd
      have hmem := lookup_none_not_mem reg c.name hlk
      simp only [List.map_append, List.map_cons, List.map_nil]
      rw [List.nodup_append]
      refine ⟨hnd, List.nodup_singleton _, ?_⟩
      intro a ha hb
      rw [List.mem_singleton] at hb
      subst hb
      exact hmem ha
  · rw [pass1Step, hlk] at h
    by_cases heq : srvc.conf = c
    · have h2 : (Except.ok ((reg, rep)) : Except String (Registry × LoadReply)) =
          Except.ok (reg1, rep1) := by
        have h3 : (if srvc.conf = c then Except.ok ((reg, rep) : Registry × LoadReply)
            else if running srvc.st = false then
              match addService reg ⟨c, newService⟩ true with
              | .error e => .error e
              | .ok reg2 =>
                  .ok (reg2, { rep with updatedServices :=
                    rep.updatedServices ++ [infoOf ⟨c, newService⟩] })
            else if equalIgnoringSafeFields srvc.conf c then
              if safeMutate srvc.conf c = c then
                .ok (setConf reg c.name c,
                  { rep with updatedServices :=
                    rep.updatedServices ++ [infoOf ⟨c, srvc.st⟩] })
              else
                .error "Failed to fully apply conf changes to service"
            else
              .error "Cannot apply these changes to a running service") =
            Except.ok (reg1, rep1) := h
        rwa [if_pos heq] at h3
      injection h2 with h3
      injection h3 with h4 h5
      subst h4
      exact ⟨⟨srvc, hlk, heq⟩, fun _ _ => rfl, fun hnd => hnd⟩
    · have h3 : (if running srvc.st = false then
            match addService reg ⟨c, newService⟩ true with
            | .error e => .error e
            | .ok reg2 =>
                .ok (reg2, { rep with updatedServices :=
                  rep.updatedServices ++ [infoOf ⟨c, newService⟩] })
          else if equalIgnoringSafeFields srvc.conf c then
            if safeMutate srvc.conf c = c then
              .ok (setConf reg c.name c,
                { rep with updatedServices :=
                  rep.updatedServices ++ [infoOf ⟨c, srvc.st⟩] })
            else
              .error "Failed to fully apply conf changes to service"
          else
            .error "Cannot apply these changes to a running service") =
          Except.ok (reg1, rep1) := by
        have h4 : (if srvc.conf = c then Except.ok ((reg, rep) : Registry × LoadReply)
            else if running srvc.st = false then
              match addService reg ⟨c, newService⟩ true with
              | .error e => .error e
              | .ok reg2 =>
                  .ok (reg2, { rep with updatedServices :=
                    rep.updatedServices ++ [infoOf ⟨c, newService⟩] })
            else if equalIgnoringSafeFields srvc.conf c then
              if safeMutate srvc.conf c = c then
                .ok (setConf reg c.name c,
                  { rep with updatedServices :=
                    rep.updatedServices ++ [infoOf ⟨c, srvc.st⟩] })
              else
                .error "Failed to fully apply conf changes to service"
            else
              .error "Cannot apply these changes to a running service") =
            Except.ok (reg1, rep1) := h
        rwa [if_neg heq] at h4
      by_cases hrun : running srvc.st = false
      · rw [if_pos hrun, addService_replace_ok reg ⟨c, newService⟩ srvc hlk hrun] at h3
        have h5 : (Except.ok ((reg.map (fun e => if e.1 = c.name then
              (e.1, (⟨c, newService⟩ : Srv)) else e),
            { rep with updatedServices :=
              rep.updatedServices ++ [infoOf ⟨c, newService⟩] })) :
              Except String (Registry × LoadReply)) = Except.ok (reg1, rep1) := h3
        injection h5 with h6
        injection h6 with h7 h8
        subst h7
        refine ⟨?_, ?_, ?_⟩
        · refine ⟨⟨c, newService⟩, ?_, rfl⟩
          have := lookup_keyed_map (fun _ => (⟨c, newService⟩ : Srv)) reg c.name c.name
          rw [if_pos rfl, hlk] at this
          exact this
        · intro nm hnm
          have := lookup_keyed_map (fun _ => (⟨c, newService⟩ : Srv)) reg c.name nm
          rwa [if_neg hnm] at this
        · intro hnd
          have hfix := names_map_fst reg
            (fun x => if x.1 = c.name then (x.1, (⟨c, newService⟩ : Srv)) else x)
            (fun x => by by_cases hx : x.1 = c.name <;> simp [hx])
          rw [hfix]
          exact hnd
      · rw [if_neg hrun] at h3
        by_cases hsafe : equalIgnoringSafeFields srvc.conf c = true
        · rw [if_pos hsafe] at h3
          by_cases hmut : safeMutate srvc.conf c = c
          · rw [if_pos hmut] at h3
            have h5 : (Except.ok ((setConf reg c.name c,
                { rep with updatedServices :=
                  rep.updatedServices ++ [infoOf ⟨c, srvc.st⟩] })) :
                  Except String (Registry × LoadReply)) = Except.ok (reg1, rep1) := h3
            injection h5 with h6
            injection h6 with h7 h8
            subst h7
            refine ⟨?_, ?_, ?_⟩
            · refine ⟨{ srvc with conf := c }, ?_, rfl⟩
              have := lookup_keyed_map (fun s => { s with conf := c }) reg c.name c.name
              rw [if_pos rfl, hlk] at this
              exact this
            · intro nm hnm
              have := lookup_keyed_map (fun s => { s with conf := c }) reg c.name nm
              rwa [if_neg hnm] at this
            · intro hnd
              rw [names_setConf]
              exact hnd
          · rw [if_neg hmut] at h3
            cases h3
        · rw [if_neg (by simpa using hsafe)] at h3
          cases h3

/-- Post-condition of the whole first loop, for conf lists with unique
names: every conf from the file is now in the registry verbatim, names
outside the file are untouched, and name uniqueness is preserved. -/
theorem pass1_post (confs : List SrvConf) :
    ∀ (reg : Registry) (rep : LoadReply) (reg1 : Registry) (rep1 : LoadReply),
      ((confs.map (fun c => c.name)).Nodup) →
      pass1 reg rep confs = .ok (reg1, rep1) →
      (∀ c ∈ confs, ∃ srv, lookupService reg1 c.name = some srv ∧ srv.conf = c) ∧
      (∀ nm, ¬ nm ∈ confs.map (fun c => c.name) →
        lookupService reg1 nm = lookupService reg nm) ∧
      ((reg.map (fun x => x.1)).Nodup → (reg1.map (fun x => x.1)).Nodup) := by
  induction confs with
  | nil =>
      intro reg rep reg1 rep1 _ h
      have h2 : (Except.ok ((reg, rep)) : Except String (Registry × LoadReply)) =
          Except.ok (reg1, rep1) := h
      injection h2 with h3
      injection h3 with h4 h5
      subst h4
      exact ⟨by simp, fun _ _ => rfl, fun hnd => hnd⟩
  | cons c rest ih =>
      intro reg rep reg1 rep1 hnd h
      rw [List.map_cons, List.nodup_cons] at hnd
      rcases hstep : pass1Step reg rep c with er | ⟨regA, repA⟩
      · rw [pass1, hstep] at h
        cases h
      · rw [pass1, hstep] at h
        have h2 : pass1 regA repA rest = .ok (reg1, rep1) := h
        obtain ⟨hc, hother, hnodup⟩ := pass1Step_ok reg rep c regA repA hstep
        obtain ⟨hrest, hother2, hnodup2⟩ := ih regA repA reg1 rep1 hnd.2 h2
        refine ⟨?_, ?_, fun hn => hnodup2 (hnodup hn)⟩
        · intro c2 hc2
          rcases List.mem_cons.mp hc2 with he | hm
          · subst he
            obtain ⟨srv, hsrv, hconf⟩ := hc
            refine ⟨srv, ?_, hconf⟩
            rw [hother2 c2.name hnd.1, hsrv]
          · exact hrest c2 hm
        · intro nm hnm
          rw [List.map_cons, List.mem_cons] at hnm
          push_neg at hnm
          rw [hother2 nm (by simpa using hnm.2), hother nm (fun he => hnm.1 he)]

/-- The per-entry effect of the second loop on the registry: entries
named in the file are kept, running entries absent from the file are
marked temp with immediate cleanup, non-running absent entries are
removed. -/
def pass2Transform (confNames : List String) (l : Registry) : Registry :=
  l.filterMap (fun e =>
    if confNames.contains e.1 then some e
    else if running e.2.st then some (e.1, setPermanence e.2 true 0)
    else none)

/-- Mapping a function that is the identity away from the middle entry. -/
theorem map_keyed_split (done rest : Registry) (e : String × Srv)
    (f : String × Srv → String × Srv)
    (hid : ∀ d ∈ done, f d = d) (hid2 : ∀ d ∈ rest, f d = d) :
    (done ++ e :: rest).map f = done ++ f e :: rest := by
  rw [List.map_append, List.map_cons, List.map_congr_left hid,
    List.map_congr_left hid2]
  simp

/-- Closed form of the second `LoadServices` loop over a snapshot with
unique names. -/
theorem pass2_closed (confNames : List String) (ex : Sig → Bool) :
    ∀ (rest done : Registry) (rep : LoadReply),
      (((done ++ rest).map (fun x => x.1)).Nodup) →
      pass2 confNames ex rest (done ++ rest) rep =
        .ok (done ++ pass2Transform confNames rest,
          { newServices := rep.newServices,
            updatedServices := rep.updatedServices,
            deprecatedServices := rep.deprecatedServices ++
              ((rest.filter (fun e => !confNames.contains e.1 && running e.2.st)).map
                (fun e => infoOf (setPermanence e.2 true 0))),
            removedServices := rep.removedServices ++
              ((rest.filter (fun e => !confNames.contains e.1 && !running e.2.st)).map
                (fun e => e.1)) }) := by
  intro rest
  induction rest with
  | nil =>
      intro done rep _
      simp [pass2, pass2Transform]
  | cons e rest' ih =>
      intro done rep hnd
      have hnames : ((done.map (fun x => x.1)) ++
          (e.1 :: rest'.map (fun x => x.1))).Nodup := by
        simpa using hnd
      rw [List.nodup_append] at hnames
      have hd : ∀ d ∈ done, ¬ d.1 = e.1 := by
        intro d hdm heq
        exact hnames.2.2 (List.mem_map_of_mem _ hdm) (by simp [heq])
      have hr : ∀ d ∈ rest', ¬ d.1 = e.1 := by
        intro d hdm heq
        have h2 := hnames.2.1
        rw [List.nodup_cons] at h2
        exact h2.1 (by
          have h3 : d.1 ∈ rest'.map (fun x => x.1) := List.mem_map_of_mem _ hdm
          simpa [heq] using h3)
      by_cases hc1 : confNames.contains e.1 = true
      · have hstep : pass2Step confNames ex (done ++ e :: rest') rep e =
            .ok (done ++ e :: rest', rep) := by
          rw [pass2Step, if_pos hc1]
        rw [pass2, hstep]
        show pass2 confNames ex rest' (done ++ e :: rest') rep = _
        have h4 : pass2 confNames ex rest' (done ++ e :: rest') rep =
            pass2 confNames ex rest' ((done ++ [e]) ++ rest') rep := by
          rw [List.append_assoc, List.singleton_append]
        rw [h4, ih (done ++ [e]) rep (by simpa using hnd)]
        have hmem : e.1 ∈ confNames := by simpa using hc1
        simp [pass2Transform, List.filterMap_cons, List.filter_cons, hmem,
          List.append_assoc]
      · by_cases hrun : running e.2.st = false
        · have hlk := lookup_append_cons done rest' e hd
          have hstop : stop e.2.st ex = (e.2.st, .ok, []) := by
            rw [stop, if_pos hrun]
          have hrm : (removeService (done ++ e :: rest') e.1 ex).1 = done ++ rest' := by
            rw [removeService, hlk]
            show (match stop e.2.st ex with
              | (_, StopOutcome.failed, _) =>
                  ((done ++ e :: rest' : Registry), StopOutcome.failed, ([] : List InfoM))
              | (st1, StopOutcome.ok, _) =>
                  ((done ++ e :: rest').filter (fun x => x.1 ≠ e.1), StopOutcome.ok,
                    [{ infoOf { conf := e.2.conf, st := st1 } with dead := true }])).1 = _
            rw [hstop]
            show (done ++ e :: rest').filter (fun x => x.1 ≠ e.1) = _
            rw [filter_ne_append_cons done rest' e hd hr]
          have hstep : pass2Step confNames ex (done ++ e :: rest') rep e =
              .ok (done ++ rest',
                { rep with removedServices := rep.removedServices ++ [e.1] }) := by
            rw [pass2Step, if_neg hc1, if_pos hrun, hrm]
          rw [pass2, hstep]
          show pass2 confNames ex rest' (done ++ rest')
            { rep with removedServices := rep.removedServices ++ [e.1] } = _
          have hnd2 : (((done ++ rest').map (fun x => x.1)).Nodup) := by
            have hsub : (done ++ rest').Sublist (done ++ e :: rest') :=
              List.Sublist.append (List.Sublist.refl done) (List.sublist_cons_self e rest')
            exact List.Nodup.sublist (hsub.map (fun x => x.1)) hnd
          rw [ih done _ hnd2]
          have hnmem : ¬ e.1 ∈ confNames := by intro hm; exact hc1 (by simpa using hm)
          simp [pass2Transform, List.filterMap_cons, List.filter_cons, hnmem, hrun,
            List.append_assoc]
        · have hlk := lookup_append_cons done rest' e hd
          have hcp : changeServicePermanence (done ++ e :: rest') e.1 true 0 =
              some (done ++ (e.1, setPermanence e.2 true 0) :: rest') := by
            rw [changeServicePermanence, hlk]
            show some ((done ++ e :: rest').map
              (fun x => if x.1 = e.1 then (x.1, setPermanence x.2 true 0) else x)) = _
            rw [map_keyed_split done rest' e _
              (fun d hdm => by rw [if_neg (hd d hdm)])
              (fun d hdm => by rw [if_neg (hr d hdm)])]
            rw [if_pos rfl]
          have hstep : pass2Step confNames ex (done ++ e :: rest') rep e =
              .ok (done ++ (e.1, setPermanence e.2 true 0) :: rest',
                { rep with deprecatedServices := rep.deprecatedServices ++
                  [infoOf (setPermanence e.2 true 0)] }) := by
            rw [pass2Step, if_neg hc1, if_neg hrun, hcp]
          rw [pass2, hstep]
          show pass2 confNames ex rest' (done ++ (e.1, setPermanence e.2 true 0) :: rest')
            { rep with deprecatedServices := rep.deprecatedServices ++
              [infoOf (setPermanence e.2 true 0)] } = _
          have h4 : pass2 confNames ex rest'
              (done ++ (e.1, setPermanence e.2 true 0) :: rest')
                { rep with deprecatedServices := rep.deprecatedServices ++
                  [infoOf (setPermanence e.2 true 0)] } =
              pass2 confNames ex rest'
                ((done ++ [(e.1, setPermanence e.2 true 0)]) ++ rest')
                { rep with deprecatedServices := rep.deprecatedServices ++
                  [infoOf (setPermanence e.2 true 0)] } := by
            rw [List.append_assoc, List.singleton_append]
          rw [h4, ih (done ++ [(e.1, setPermanence e.2 true 0)])
            { rep with deprecatedServices := rep.deprecatedServices ++
              [infoOf (setPermanence e.2 true 0)] } (by simpa using hnd)]
          simp only [Bool.not_eq_false] at hrun
          have hnmem : ¬ e.1 ∈ confNames := by intro hm; exact hc1 (by simpa using hm)
          simp [pass2Transform, List.filterMap_cons, List.filter_cons, hnmem, hrun,
            List.append_assoc]

/-- The first loop is a registry- and reply-preserving no-op when every
conf from the file already sits in the registry verbatim. -/
theorem pass1_noop (confs : List SrvConf) :
    ∀ (reg : Registry) (rep : LoadReply),
      (∀ c ∈ confs, ∃ srv, lookupService reg c.name = some srv ∧ srv.conf = c) →
      pass1 reg rep confs = .ok (reg, rep) := by
  induction confs with
  | nil => intro reg rep _; rfl
  | cons c rest ih =>
      intro reg rep hall
      obtain ⟨srv, hsrv, hconf⟩ := hall c (by simp)
      have hstep : pass1Step reg rep c = .ok (reg, rep) := by
        rw [pass1Step, hsrv]
        have h3 : (if srv.conf = c then Except.ok ((reg, rep) : Registry × LoadReply)
            else if running srv.st = false then
              match addService reg ⟨c, newService⟩ true with
              | .error e => .error e
              | .ok reg2 =>
                  .ok (reg2, { rep with updatedServices :=
                    rep.updatedServices ++ [infoOf ⟨c, newService⟩] })
            else if equalIgnoringSafeFields srv.conf c then
              if safeMutate srv.conf c = c then
                .ok (setConf reg c.name c,
                  { rep with updatedServices :=
                    rep.updatedServices ++ [infoOf ⟨c, srv.st⟩] })
              else
                .error "Failed to fully apply conf changes to service"
            else
              .error "Cannot apply these changes to a running service") =
            Except.ok ((reg, rep) : Registry × LoadReply) := by
          rw [if_pos hconf]
        exact h3
      rw [pass1, hstep]
      exact ih reg rep (fun c2 h2 => hall c2 (by simp [h2]))

/-- Marking an already-marked service changes nothing. -/
theorem setPermanence_id (srv : Srv) (h1 : srv.conf.temp = true)
    (h2 : srv.conf.cleanAfter = 0) : setPermanence srv true 0 = srv := by
  rcases srv with ⟨conf, st⟩
  rcases conf with ⟨n, p, a, d, en, au, r, t, ca⟩
  dsimp only at h1 h2
  subst h1
  subst h2
  rfl

/-- Entries the second loop leaves in the registry that are absent from
the file are running and marked temp with immediate cleanup. -/
theorem pass2Transform_mem (confNames : List String) (l : Registry) :
    ∀ e' ∈ pass2Transform confNames l, ¬ confNames.contains e'.1 = true →
      running e'.2.st = true ∧ e'.2.conf.temp = true ∧ e'.2.conf.cleanAfter = 0 := by
  intro e' he' hnc
  rw [pass2Transform, List.mem_filterMap] at he'
  obtain ⟨e, _, heq⟩ := he'
  by_cases hc : confNames.contains e.1 = true
  · rw [if_pos hc] at heq
    injection heq with h2
    exact absurd (h2 ▸ hc) hnc
  · rw [if_neg hc] at heq
    by_cases hrun : running e.2.st = true
    · rw [if_pos hrun] at heq
      injection heq with h2
      subst h2
      exact ⟨hrun, rfl, rfl⟩
    · rw [if_neg hrun] at heq
      cases heq

theorem pass2Transform_names_sublist (confNames : List String) (l : Registry) :
    ((pass2Transform confNames l).map (fun x => x.1)).Sublist
      (l.map (fun x => x.1)) := by
  induction l with
  | nil => simp [pass2Transform]
  | cons e rest ih =>
      rw [pass2Transform, List.filterMap_cons]
      rw [pass2Transform] at ih
      by_cases hc : confNames.contains e.1 = true
      · rw [if_pos hc]
        simpa using List.Sublist.cons₂ e.1 ih
      · rw [if_neg hc]
        by_cases hrun : running e.2.st = true
        · rw [if_pos hrun]
          simpa using List.Sublist.cons₂ e.1 ih
        · rw [if_neg hrun]
          simpa using List.Sublist.cons e.1 ih

theorem lookup_pass2Transform_present (confNames : List String) (l : Registry)
    (nm : String) (h : confNames.contains nm = true) :
    lookupService (pass2Transform confNames l) nm = lookupService l nm := by
  induction l with
  | nil => rfl
  | cons e rest ih =>
      rw [pass2Transform, List.filterMap_cons]
      rw [pass2Transform] at ih
      by_cases he : e.1 = nm
      · rw [if_pos (by rw [he]; exact h)]
        rw [lookup_cons_eq_name e _ nm he, lookup_cons_eq_name e rest nm he]
      · rw [lookup_cons_ne e rest nm he]
        by_cases hc : confNames.contains e.1 = true
        · rw [if_pos hc, lookup_cons_ne e _ nm he]
          exact ih
        · rw [if_neg hc]
          by_cases hrun : running e.2.st = true
          · rw [if_pos hrun,
              lookup_cons_ne (e.1, setPermanence e.2 true 0) _ nm he]
            exact ih
          · rw [if_neg hrun]
            exact ih

/-- The second loop's registry transform is the identity on a registry
whose absent entries are already running and marked. -/
theorem pass2Transform_id (confNames : List String) (l : Registry)
    (h : ∀ e ∈ l, ¬ confNames.contains e.1 = true →
      running e.2.st = true ∧ e.2.conf.temp = true ∧ e.2.conf.cleanAfter = 0) :
    pass2Transform confNames l = l := by
  induction l with
  | nil => rfl
  | cons e rest ih =>
      rw [pass2Transform, List.filterMap_cons]
      have ih2 := ih (fun d hd hnc => h d (by simp [hd]) hnc)
      rw [pass2Transform] at ih2
      by_cases hc : confNames.contains e.1 = true
      · rw [if_pos hc, ih2]
      · obtain ⟨hrun, ht, hca⟩ := h e (by simp) hc
        rw [if_neg hc, if_pos hrun, ih2, setPermanence_id e.2 ht hca]

/-- C5-amended: calling `LoadServices` twice in a row on an unchanged
definition file with uniquely-named entries leaves, on the second call,
`NewServices`, `UpdatedServices` and `RemovedServices` empty and the
registry unchanged; `DeprecatedServices`, however, again lists every
registry service that is still running and absent from the file (all
already marked temp by the first call), and is empty exactly when there
is no such service. -/
theorem loadServices_second_call (reg : Registry) (confs : List SrvConf)
    (ex : Sig → Bool) (reg1 : Registry) (rep1 : LoadReply)
    (hconfs : ((confs.map (fun c => c.name)).Nodup))
    (hreg : ((reg.map (fun x => x.1)).Nodup))
    (h1 : loadServices reg confs ex = .ok (reg1, rep1)) :
    loadServices reg1 confs ex =
      .ok (reg1,
        { newServices := [], updatedServices := [],
          deprecatedServices :=
            (reg1.filter
              (fun e => !(confs.map (fun c => c.name)).contains e.1)).map
              (fun e => infoOf e.2),
          removedServices := [] }) := by
  rcases hp1 : pass1 reg emptyReply confs with er | ⟨regA, repA⟩
  · rw [loadServices, hp1] at h1
    have h1' : (Except.error er : Except String (Registry × LoadReply)) =
        .ok (reg1, rep1) := h1
    cases h1'
  · rw [loadServices, hp1] at h1
    have h1' : pass2 (confs.map (fun c => c.name)) ex regA regA repA =
        .ok (reg1, rep1) := h1
    obtain ⟨hconf_in, hpres, hnodupA⟩ :=
      pass1_post confs reg emptyReply regA repA hconfs hp1
    have hndA : ((regA.map (fun x => x.1)).Nodup) := hnodupA hreg
    have hcl := pass2_closed (confs.map (fun c => c.name)) ex regA [] repA
      (by simpa using hndA)
    simp only [List.nil_append] at hcl
    rw [hcl] at h1'
    injection h1' with h2
    injection h2 with h3 h4
    subst h3
    have hmarked := pass2Transform_mem (confs.map (fun c => c.name)) regA
    have hnd1 : (((pass2Transform (confs.map (fun c => c.name)) regA).map
        (fun x => x.1)).Nodup) :=
      List.Nodup.sublist
        (pass2Transform_names_sublist (confs.map (fun c => c.name)) regA) hndA
    have hpresent : ∀ c ∈ confs, ∃ srv,
        lookupService (pass2Transform (confs.map (fun c => c.name)) regA) c.name =
          some srv ∧ srv.conf = c := by
      intro c hc
      obtain ⟨srv, hs, hcf⟩ := hconf_in c hc
      have hmm : (confs.map (fun c => c.name)).contains c.name = true := by
        simpa using List.mem_map_of_mem (fun c => c.name) hc
      refine ⟨srv, ?_, hcf⟩
      rw [lookup_pass2Transform_present (confs.map (fun c => c.name)) regA c.name hmm,
        hs]
    rw [loadServices,
      pass1_noop confs (pass2Transform (confs.map (fun c => c.name)) regA)
        emptyReply hpresent]
    show pass2 (confs.map (fun c => c.name)) ex
      (pass2Transform (confs.map (fun c => c.name)) regA)
      (pass2Transform (confs.map (fun c => c.name)) regA) emptyReply = _
    have hcl2 := pass2_closed (confs.map (fun c => c.name)) ex
      (pass2Transform (confs.map (fun c => c.name)) regA) [] emptyReply
      (by simpa using hnd1)
    simp only [List.nil_append] at hcl2
    rw [hcl2, pass2Transform_id (confs.map (fun c => c.name)) _ hmarked]
    have hremoved : (pass2Transform (confs.map (fun c => c.name)) regA).filter
        (fun e => !(confs.map (fun c => c.name)).contains e.1 && !running e.2.st) =
        [] := by
      rw [List.filter_eq_nil_iff]
      intro a ha hcond
      rw [Bool.and_eq_true, Bool.not_eq_true', Bool.not_eq_true'] at hcond
      obtain ⟨hrun, -, -⟩ := hmarked a ha (fun h => by rw [hcond.1] at h; cases h)
      rw [hcond.2] at hrun
      cases hrun
    have hdep : (pass2Transform (confs.map (fun c => c.name)) regA).filter
        (fun e => !(confs.map (fun c => c.name)).contains e.1 && running e.2.st) =
        (pass2Transform (confs.map (fun c => c.name)) regA).filter
          (fun e => !(confs.map (fun c => c.name)).contains e.1) := by
      apply List.filter_congr
      intro a ha
      by_cases hc : (confs.map (fun c => c.name)).contains a.1 = true
      · have hm : a.1 ∈ confs.map (fun c => c.name) := by simpa using hc
        simp [hm]
      · obtain ⟨hrun, -, -⟩ := hmarked a ha hc
        have hm : ¬ a.1 ∈ confs.map (fun c => c.name) := by
          intro hmm
          exact hc (by simpa using hmm)
        simp [hm, hrun]
    have hmap : ((pass2Transform (confs.map (fun c => c.name)) regA).filter
        (fun e => !(confs.map (fun c => c.name)).contains e.1)).map
          (fun e => infoOf (setPermanence e.2 true 0)) =
        ((pass2Transform (confs.map (fun c => c.name)) regA).filter
          (fun e => !(confs.map (fun c => c.name)).contains e.1)).map
          (fun e => infoOf e.2) := by
      apply List.map_congr_left
      intro a ha
      rw [List.mem_filter] at ha
      have ha2 := ha.2
      rw [Bool.not_eq_true'] at ha2
      obtain ⟨-, ht, hca⟩ := hmarked a ha.1 (fun h => by rw [ha2] at h; cases h)
      rw [setPermanence_id a.2 ht hca]
    rw [hremoved, hdep, hmap]
    simp [emptyReply]

/-- C5-amended-witness: instantiating the amended theorem at the
counterexample registry (one running service, empty file): the second
call re-reports the marked service as deprecated and changes nothing. -/
theorem loadServices_second_call_witness :
    loadServices [("x", ⟨{ plainConf "x" "p" with temp := true }, runningSt⟩)] []
        (fun _ => false) =
      Except.ok (([("x", ⟨{ plainConf "x" "p" with temp := true }, runningSt⟩)] : Registry),
        { newServices := [], updatedServices := [],
          deprecatedServices :=
            (([("x", ⟨{ plainConf "x" "p" with temp := true }, runningSt⟩)] : Registry).filter
              (fun e => !(([] : List SrvConf).map (fun c => c.name)).contains e.1)).map
              (fun e => infoOf e.2),
          removedServices := [] }) :=
  loadServices_second_call [("x", ⟨plainConf "x" "p", runningSt⟩)] [] (fun _ => false)
    [("x", ⟨{ plainConf "x" "p" with temp := true }, runningSt⟩)]
    { newServices := [], updatedServices := [],
      deprecatedServices := [infoOf ⟨{ plainConf "x" "p" with temp := true }, runningSt⟩],
      removedServices := [] }
    (by decide) (by decide) rfl

end Bento
